import Mathlib

/-!
Verification of the lucid-dashboard analytics core.

Two near-identical computation modules exist in the repository:
variant A (`src/extension/content.js`, per-trade framing) and variant B
(`src/unnamed/part_000`, per-day framing).  Numbers are modelled as
rationals; JS `parseFloat` is modelled by `parseFloatQ` on the decimal
grammar it accepts (longest valid prefix, `none` for NaN).
-/

namespace Lucid

/-- JS whitespace characters relevant to `trim` and `parseFloat`. -/
def jsWhitespaceChar (c : Char) : Bool :=
  c = ' ' || c = '\t' || c = '\n' || c = '\r' || c = '\x0b' || c = '\x0c'

/-- Model of `String.prototype.trim`. -/
def jsTrim (s : String) : String :=
  String.mk (((s.toList.dropWhile jsWhitespaceChar).reverse.dropWhile jsWhitespaceChar).reverse)

/-- Model of `s.replace(/[$,]/g, '')`. -/
def stripDollarComma (s : String) : String :=
  String.mk (s.toList.filter fun c => !(c = '$' || c = ','))

/-- Model of `s.replace(/\s/g, '')`. -/
def stripAllWhitespace (s : String) : String :=
  String.mk (s.toList.filter fun c => !jsWhitespaceChar c)

/-- Decimal value of a digit run. -/
def digitsVal (ds : List Char) : Nat :=
  ds.foldl (fun a c => 10 * a + (c.toNat - 48)) 0

/-- Model of JS `parseFloat`: skip leading whitespace, optional sign,
digits with optional fraction and exponent, longest valid prefix;
`none` models NaN (no parseable numeric prefix). -/
def parseFloatQ (s : String) : Option ℚ :=
  let cs := s.toList.dropWhile jsWhitespaceChar
  let signed : ℚ × List Char :=
    match cs with
    | '+' :: rest => (1, rest)
    | '-' :: rest => (-1, rest)
    | rest => (1, rest)
  let sign := signed.1
  let cs1 := signed.2
  let ip := cs1.takeWhile Char.isDigit
  let cs2 := cs1.dropWhile Char.isDigit
  let fracRest : List Char × List Char :=
    match cs2 with
    | '.' :: rest => (rest.takeWhile Char.isDigit, rest.dropWhile Char.isDigit)
    | _ => ([], cs2)
  let fp := fracRest.1
  let cs3 := fracRest.2
  if ip.isEmpty && fp.isEmpty then none
  else
    let mant : ℚ := (digitsVal ip : ℚ) + (digitsVal fp : ℚ) / ((10 : ℚ) ^ fp.length)
    let expVal : ℤ :=
      match cs3 with
      | c :: rest =>
        if c = 'e' || c = 'E' then
          let se : ℤ × List Char :=
            match rest with
            | '+' :: r => (1, r)
            | '-' :: r => (-1, r)
            | r => (1, r)
          let eds := se.2.takeWhile Char.isDigit
          if eds.isEmpty then 0 else se.1 * (digitsVal eds : ℤ)
        else 0
      | [] => 0
    some (sign * mant * (10 : ℚ) ^ expVal)

/-- Variant A `parseCurrency` (content.js lines 6-11): strip `$` and `,`,
trim, `parseFloat`, `0` on NaN or empty input. -/
def parseCurrencyA (s : String) : ℚ :=
  if s = "" then 0
  else
    let cleaned := jsTrim (stripDollarComma s)
    match parseFloatQ cleaned with
    | none => 0
    | some n => n

/-- Variant B `parseCurrency` (part_000 lines 7-15): trim, strip `$`, `,`
and all whitespace, `parseFloat`; `0` on NaN; negate the absolute value
when the trimmed input contains `(`. -/
def parseCurrencyB (s : String) : ℚ :=
  if s = "" then 0
  else
    let trimmed := jsTrim s
    let cleaned := stripAllWhitespace (stripDollarComma trimmed)
    match parseFloatQ cleaned with
    | none => 0
    | some n => if trimmed.toList.contains '(' then -|n| else n

/-- Model of `s.replace('%', '')`: JS `replace` with a string pattern
replaces only the first occurrence. -/
def removeFirstChar (c : Char) : List Char → List Char
  | [] => []
  | x :: xs => if x = c then xs else x :: removeFirstChar c xs

/-- Variant A `parsePct` (content.js lines 13-17): drop the first `%`, trim,
`parseFloat`, `0` on NaN or empty input. -/
def parsePct (s : String) : ℚ :=
  if s = "" then 0
  else
    let cleaned := jsTrim (String.mk (removeFirstChar '%' s.toList))
    match parseFloatQ cleaned with
    | none => 0
    | some n => n

/-! ## Data model -/

/-- The result of a successful `new Date(s)`: the weekday index
(`getDay`, Sunday = 0) and the day part of `toISOString()`. -/
structure JSDate where
  getDay : Fin 7
  isoDay : String
deriving DecidableEq

/-- Weekday labels, content.js line 4 and part_000 line 4. -/
def DAYS : List String := ["Sun", "Mon", "Tue", "Wed", "Thu", "Fri", "Sat"]

/-- `DAYS[date.getDay()]`. -/
def dayNameOf (i : Fin 7) : String := DAYS.get ⟨i.val, i.isLt⟩

/-- Variant A trade record (content.js lines 43-53). -/
structure RecordA where
  date : Option JSDate
  dateStr : String
  symbol : String
  netPnl : ℚ
  winPct : ℚ
  avgWin : ℚ
  avgLoss : ℚ
  dayOfWeek : Option (Fin 7)
  dayName : String
deriving DecidableEq

/-- Variant B trade record (part_000 lines 41-52).  `pnlLow` is optional
because `computeStats` guards it with `typeof v === 'number' && !isNaN(v)`;
`parseTable` always supplies a number. -/
structure RecordB where
  date : Option JSDate
  dateStr : String
  symbol : String
  netPnl : ℚ
  grossPnl : ℚ
  commission : ℚ
  pnlHigh : ℚ
  pnlLow : Option ℚ
  dayOfWeek : Option (Fin 7)
  dayName : String
deriving DecidableEq

/-- Variant A statistics summary (content.js lines 91-106). -/
structure StatsA where
  totalTrades : ℕ
  winningTrades : ℕ
  losingTrades : ℕ
  winRate : ℚ
  grossProfit : ℚ
  grossLoss : ℚ
  profitFactor : ℚ
  netPnl : ℚ
  expectancy : ℚ
  avgWin : ℚ
  avgLoss : ℚ
  largestWin : ℚ
  largestLoss : ℚ
  avgWinPct : ℚ
deriving DecidableEq

/-- Variant B statistics summary (part_000 lines 109-120). -/
structure StatsB where
  profitableDays : ℕ
  losingDays : ℕ
  dayWinRatePct : ℚ
  grossPnl : ℚ
  totalCommission : ℚ
  profitFactor : ℚ
  netPnl : ℚ
  expectancy : ℚ
  worstDayNet : ℚ
  worstIntradayLow : ℚ
deriving DecidableEq

/-- `Math.min(...xs)` over a nonempty list (0 as unused default). -/
def listMin : List ℚ → ℚ
  | [] => 0
  | x :: xs => xs.foldl min x

/-- `Math.max(...xs)` over a nonempty list (0 as unused default). -/
def listMax : List ℚ → ℚ
  | [] => 0
  | x :: xs => xs.foldl max x

/-! ## Variant A aggregator (content.js `computeStats`, lines 57-107)

Each `const` of the source body is a top-level definition.  The versions
suffixed `With` take the division operation as a parameter `dv`; the source
semantics is recovered with `dv = (· / ·)`, and instantiating `dv` with any
function agreeing with division on nonzero denominators proves that no
division site is ever reached with a zero denominator. -/

def winsA (rows : List RecordA) : List RecordA :=
  rows.filter fun r => decide (0 < r.netPnl)

def lossesA (rows : List RecordA) : List RecordA :=
  rows.filter fun r => decide (r.netPnl < 0)

/-- `xs.reduce((s, r) => s + r.netPnl, 0)`. -/
def sumNetPnlA (rows : List RecordA) : ℚ :=
  rows.foldl (fun s r => s + r.netPnl) 0

def grossProfitA (rows : List RecordA) : ℚ := sumNetPnlA (winsA rows)

def grossLossA (rows : List RecordA) : ℚ := |sumNetPnlA (lossesA rows)|

def profitFactorAWith (dv : ℚ → ℚ → ℚ) (rows : List RecordA) : ℚ :=
  if 0 < grossLossA rows then dv (grossProfitA rows) (grossLossA rows)
  else if 0 < grossProfitA rows then 999 else 0

def winRateAWith (dv : ℚ → ℚ → ℚ) (rows : List RecordA) : ℚ :=
  if rows.length ≠ 0 then dv ((winsA rows).length : ℚ) (rows.length : ℚ) * 100 else 0

def avgWinAWith (dv : ℚ → ℚ → ℚ) (rows : List RecordA) : ℚ :=
  if (winsA rows).length ≠ 0 then dv (sumNetPnlA (winsA rows)) ((winsA rows).length : ℚ) else 0

/-- `xs.reduce((s, r) => s + Math.abs(r.netPnl), 0)`. -/
def sumAbsNetPnlA (rows : List RecordA) : ℚ :=
  rows.foldl (fun s r => s + |r.netPnl|) 0

def avgLossAWith (dv : ℚ → ℚ → ℚ) (rows : List RecordA) : ℚ :=
  if (lossesA rows).length ≠ 0 then
    dv (sumAbsNetPnlA (lossesA rows)) ((lossesA rows).length : ℚ)
  else 0

def expectancyAWith (dv : ℚ → ℚ → ℚ) (rows : List RecordA) : ℚ :=
  if rows.length ≠ 0 then
    dv (winRateAWith dv rows) 100 * avgWinAWith dv rows
      - (1 - dv (winRateAWith dv rows) 100) * avgLossAWith dv rows
  else 0

def largestWinA (rows : List RecordA) : ℚ :=
  if (winsA rows).length ≠ 0 then listMax ((winsA rows).map fun r => r.netPnl) else 0

def largestLossA (rows : List RecordA) : ℚ :=
  if (lossesA rows).length ≠ 0 then listMin ((lossesA rows).map fun r => r.netPnl) else 0

def winPctsA (rows : List RecordA) : List ℚ :=
  (rows.map fun r => r.winPct).filter fun p => decide (0 < p)

def avgWinPctAWith (dv : ℚ → ℚ → ℚ) (rows : List RecordA) : ℚ :=
  if (winPctsA rows).length ≠ 0 then
    dv ((winPctsA rows).foldl (fun a b => a + b) 0) ((winPctsA rows).length : ℚ)
  else 0

/-- content.js lines 59-74: the all-zero summary for empty input. -/
def zeroStatsA : StatsA := ⟨0, 0, 0, 0, 0, 0, 0, 0, 0, 0, 0, 0, 0, 0⟩

def computeStatsAWith (dv : ℚ → ℚ → ℚ) (rows : List RecordA) : StatsA :=
  if rows.length = 0 then zeroStatsA
  else
    { totalTrades := rows.length
      winningTrades := (winsA rows).length
      losingTrades := (lossesA rows).length
      winRate := winRateAWith dv rows
      grossProfit := grossProfitA rows
      grossLoss := grossLossA rows
      profitFactor := profitFactorAWith dv rows
      netPnl := sumNetPnlA rows
      expectancy := expectancyAWith dv rows
      avgWin := avgWinAWith dv rows
      avgLoss := avgLossAWith dv rows
      largestWin := largestWinA rows
      largestLoss := largestLossA rows
      avgWinPct := avgWinPctAWith dv rows }

/-- Variant A `computeStats`. -/
def computeStatsA (rows : List RecordA) : StatsA :=
  computeStatsAWith (fun a b => a / b) rows

/-! ## Grouping engine (both variants, identical source)

A JS object with array values is modelled as an association list in key
insertion order.  `pushKey` is the body of the `forEach` in `groupBySymbol`
(create the bucket if the key is missing, then push); `pushExisting` is the
push of `groupByDayOfWeek` (push only into an existing bucket). -/

def objGet {R : Type} (o : List (String × List R)) (k : String) : Option (List R) :=
  (o.find? fun kv => decide (kv.1 = k)).map fun kv => kv.2

def hasKey {R : Type} (o : List (String × List R)) (k : String) : Bool :=
  o.any fun kv => decide (kv.1 = k)

def pushExisting {R : Type} (o : List (String × List R)) (k : String) (r : R) :
    List (String × List R) :=
  o.map fun kv => if kv.1 = k then (kv.1, kv.2 ++ [r]) else kv

def pushKey {R : Type} (o : List (String × List R)) (k : String) (r : R) :
    List (String × List R) :=
  if hasKey o k then pushExisting o k r else o ++ [(k, [r])]

/-- The single pass of `groupBySymbol` generalized over the key accessor. -/
def groupByKey {R : Type} (key : R → String) (rows : List R) : List (String × List R) :=
  rows.foldl (fun o r => pushKey o (key r) r) []

def keysOf {R : Type} (o : List (String × List R)) : List String := o.map fun kv => kv.1

/-- `groupBySymbol` of content.js lines 109-116. -/
def groupBySymbolA (rows : List RecordA) : List (String × List RecordA) :=
  groupByKey (fun r => r.symbol) rows

/-- `groupBySymbol` of part_000 lines 123-130. -/
def groupBySymbolB (rows : List RecordB) : List (String × List RecordB) :=
  groupByKey (fun r => r.symbol) rows

/-- `Object.keys(bySymbol).sort()` (renderPanel): the distinct symbols in
lexicographic order. -/
def sortedSymbolsA (rows : List RecordA) : List String :=
  (keysOf (groupBySymbolA rows)).insertionSort (fun a b => a ≤ b)

def sortedSymbolsB (rows : List RecordB) : List String :=
  (keysOf (groupBySymbolB rows)).insertionSort (fun a b => a ≤ b)

/-- `DAYS.forEach((d) => { byDay[d] = []; })`. -/
def initDayBuckets (R : Type) : List (String × List R) := DAYS.map fun d => (d, [])

/-- `groupByDayOfWeek` generalized over the `dayName` accessor
(content.js lines 118-125, part_000 lines 132-139): a record is pushed only
when its `dayName` is truthy and names an existing bucket. -/
def groupByDayG {R : Type} (dayName : R → String) (rows : List R) :
    List (String × List R) :=
  rows.foldl
    (fun o r =>
      if dayName r ≠ "" ∧ hasKey o (dayName r) then pushExisting o (dayName r) r else o)
    (initDayBuckets R)

def groupByDayOfWeekA (rows : List RecordA) : List (String × List RecordA) :=
  groupByDayG (fun r => r.dayName) rows

def groupByDayOfWeekB (rows : List RecordB) : List (String × List RecordB) :=
  groupByDayG (fun r => r.dayName) rows

/-! ## Variant B aggregator (part_000 `computeStats`, lines 56-121) -/

/-- The grouping key of the `byDate` pass (part_000 line 73):
`r.dateStr || (r.date ? r.date.toISOString().slice(0, 10) : '')`. -/
def byDateKeyB (r : RecordB) : String :=
  if r.dateStr ≠ "" then r.dateStr
  else match r.date with
    | some d => d.isoDay
    | none => ""

/-- part_000 lines 71-77: group rows by date key, skipping empty keys. -/
def byDateB (rows : List RecordB) : List (String × List RecordB) :=
  rows.foldl (fun o r => if byDateKeyB r = "" then o else pushKey o (byDateKeyB r) r) []

/-- One entry of `dateTotals` (part_000 lines 78-82). -/
structure DayTotal where
  date : String
  netPnl : ℚ
  grossPnl : ℚ
deriving DecidableEq

/-- `r.grossPnl || (r.netPnl + (r.commission || 0))`: JS `||` falls through
on the falsy number 0. -/
def recGrossB (r : RecordB) : ℚ :=
  if r.grossPnl = 0 then r.netPnl + r.commission else r.grossPnl

def dateTotalsB (rows : List RecordB) : List DayTotal :=
  (byDateB rows).map fun kv =>
    ⟨kv.1, kv.2.foldl (fun s r => s + r.netPnl) 0, kv.2.foldl (fun s r => s + recGrossB r) 0⟩

def profitableDaysB (rows : List RecordB) : ℕ :=
  ((dateTotalsB rows).filter fun d => decide (0 < d.netPnl)).length

def losingDaysB (rows : List RecordB) : ℕ :=
  ((dateTotalsB rows).filter fun d => decide (d.netPnl < 0)).length

def totalTradingDaysB (rows : List RecordB) : ℕ := (dateTotalsB rows).length

def dayWinRatePctBWith (dv : ℚ → ℚ → ℚ) (rows : List RecordB) : ℚ :=
  if totalTradingDaysB rows ≠ 0 then
    dv (profitableDaysB rows : ℚ) (totalTradingDaysB rows : ℚ) * 100
  else 0

def grossProfitDaysB (rows : List RecordB) : ℚ :=
  ((dateTotalsB rows).filter fun d => decide (0 < d.grossPnl)).foldl (fun s d => s + d.grossPnl) 0

def grossLossDaysB (rows : List RecordB) : ℚ :=
  |((dateTotalsB rows).filter fun d => decide (d.grossPnl < 0)).foldl (fun s d => s + d.grossPnl) 0|

def profitFactorBWith (dv : ℚ → ℚ → ℚ) (rows : List RecordB) : ℚ :=
  if 0 < grossLossDaysB rows then dv (grossProfitDaysB rows) (grossLossDaysB rows)
  else if 0 < grossProfitDaysB rows then 999 else 0

def profitableRowsB (rows : List RecordB) : List RecordB :=
  rows.filter fun r => decide (0 < r.netPnl)

def losingRowsB (rows : List RecordB) : List RecordB :=
  rows.filter fun r => decide (r.netPnl < 0)

def sumNetPnlB (rows : List RecordB) : ℚ :=
  rows.foldl (fun s r => s + r.netPnl) 0

def sumAbsNetPnlB (rows : List RecordB) : ℚ :=
  rows.foldl (fun s r => s + |r.netPnl|) 0

def totalCommissionB (rows : List RecordB) : ℚ :=
  rows.foldl (fun s r => s + r.commission) 0

def grossProfitB (rows : List RecordB) : ℚ :=
  (rows.filter fun r => decide (0 < r.grossPnl)).foldl (fun s r => s + r.grossPnl) 0

def grossLossB (rows : List RecordB) : ℚ :=
  |(rows.filter fun r => decide (r.grossPnl < 0)).foldl (fun s r => s + r.grossPnl) 0|

def grossPnlAggB (rows : List RecordB) : ℚ := grossProfitB rows - grossLossB rows

def avgWinPerDayBWith (dv : ℚ → ℚ → ℚ) (rows : List RecordB) : ℚ :=
  if (profitableRowsB rows).length ≠ 0 then
    dv (sumNetPnlB (profitableRowsB rows)) ((profitableRowsB rows).length : ℚ)
  else 0

def avgLossPerDayBWith (dv : ℚ → ℚ → ℚ) (rows : List RecordB) : ℚ :=
  if (losingRowsB rows).length ≠ 0 then
    dv (sumAbsNetPnlB (losingRowsB rows)) ((losingRowsB rows).length : ℚ)
  else 0

def expectancyBWith (dv : ℚ → ℚ → ℚ) (rows : List RecordB) : ℚ :=
  dv (dayWinRatePctBWith dv rows) 100 * avgWinPerDayBWith dv rows
    - (1 - dv (dayWinRatePctBWith dv rows) 100) * avgLossPerDayBWith dv rows

def worstDayNetB (rows : List RecordB) : ℚ :=
  if (losingRowsB rows).length ≠ 0 then listMin ((losingRowsB rows).map fun r => r.netPnl)
  else 0

/-- part_000 line 106: `rows.map((r) => r.pnlLow).filter((v) => typeof v
=== 'number' && !isNaN(v))` — the defined `pnlLow` values. -/
def pnlLowsB (rows : List RecordB) : List ℚ :=
  (rows.map fun r => r.pnlLow).filterMap fun v => v

def worstIntradayLowB (rows : List RecordB) : ℚ :=
  if (pnlLowsB rows).length ≠ 0 then listMin (pnlLowsB rows)
  else if (losingRowsB rows).length ≠ 0 then worstDayNetB rows else 0

/-- part_000 lines 58-69: the all-zero summary for empty input. -/
def zeroStatsB : StatsB := ⟨0, 0, 0, 0, 0, 0, 0, 0, 0, 0⟩

def computeStatsBWith (dv : ℚ → ℚ → ℚ) (rows : List RecordB) : StatsB :=
  if rows.length = 0 then zeroStatsB
  else
    { profitableDays := profitableDaysB rows
      losingDays := losingDaysB rows
      dayWinRatePct := dayWinRatePctBWith dv rows
      grossPnl := grossPnlAggB rows
      totalCommission := totalCommissionB rows
      profitFactor := profitFactorBWith dv rows
      netPnl := sumNetPnlB rows
      expectancy := expectancyBWith dv rows
      worstDayNet := worstDayNetB rows
      worstIntradayLow := worstIntradayLowB rows }

/-- Variant B `computeStats`. -/
def computeStatsB (rows : List RecordB) : StatsB :=
  computeStatsBWith (fun a b => a / b) rows

/-! ## Row normalizer (`parseTable`, both variants)

A raw `<tr>` is modelled by the text contents `parseTable` can read from
it: each labelled `<td>`'s `textContent` (`none` when the cell is absent)
and the badge elements' `textContent`.  The browser's `new Date` is an
external builtin, so it is a parameter `jsDate` of the normalizer. -/

structure RawRow where
  netPnlCell : Option String
  symbolBadge : Option String
  symbolCell : Option String
  dateCell : Option String
  winBadgeCell : Option String
  winPctCell : Option String
  avgWinCell : Option String
  avgLossCell : Option String
  commissionCell : Option String
  pnlHighCell : Option String
  pnlLowCell : Option String
deriving DecidableEq

/-- `getCellText`: the trimmed text of a labelled cell, `''` when absent. -/
def getCell (c : Option String) : String :=
  match c with
  | some t => jsTrim t
  | none => ""

/-- `parseDate` given the `new Date` builtin `jsDate`. -/
def parseDateWith (jsDate : String → Option JSDate) (s : String) : Option JSDate :=
  if s = "" then none else jsDate s

/-- The record built from one row, content.js lines 32-53. -/
def mkRecordA (jsDate : String → Option JSDate) (tr : RawRow) : RecordA :=
  let netPnl := parseCurrencyA (getCell tr.netPnlCell)
  let symbol := match tr.symbolBadge with
    | some t => jsTrim t
    | none => getCell tr.symbolCell
  let dateText := getCell tr.dateCell
  let date := parseDateWith jsDate dateText
  let winPctText := match tr.winBadgeCell with
    | some t => jsTrim t
    | none => getCell tr.winPctCell
  { date := date
    dateStr := dateText
    symbol := symbol
    netPnl := netPnl
    winPct := parsePct winPctText
    avgWin := parseCurrencyA (getCell tr.avgWinCell)
    avgLoss := parseCurrencyA (getCell tr.avgLossCell)
    dayOfWeek := date.map fun d => d.getDay
    dayName := match date with
      | some d => dayNameOf d.getDay
      | none => "" }

/-- content.js lines 30-55: map rows, keep those with truthy `symbol` and
`dateStr`. -/
def parseTableA (jsDate : String → Option JSDate) (trs : List RawRow) : List RecordA :=
  (trs.map (mkRecordA jsDate)).filter fun r => decide (r.symbol ≠ "") && decide (r.dateStr ≠ "")

/-- The record built from one row, part_000 lines 30-52. -/
def mkRecordB (jsDate : String → Option JSDate) (tr : RawRow) : RecordB :=
  let netPnl := parseCurrencyB (getCell tr.netPnlCell)
  let symbol := match tr.symbolBadge with
    | some t => jsTrim t
    | none => getCell tr.symbolCell
  let dateText := getCell tr.dateCell
  let date := parseDateWith jsDate dateText
  let commission := parseCurrencyB (getCell tr.commissionCell)
  { date := date
    dateStr := dateText
    symbol := symbol
    netPnl := netPnl
    grossPnl := netPnl + commission
    commission := commission
    pnlHigh := parseCurrencyB (getCell tr.pnlHighCell)
    pnlLow := some (parseCurrencyB (getCell tr.pnlLowCell))
    dayOfWeek := date.map fun d => d.getDay
    dayName := match date with
      | some d => dayNameOf d.getDay
      | none => "" }

/-- part_000 lines 28-54. -/
def parseTableB (jsDate : String → Option JSDate) (trs : List RawRow) : List RecordB :=
  (trs.map (mkRecordB jsDate)).filter fun r => decide (r.symbol ≠ "") && decide (r.dateStr ≠ "")

/-- First-occurrence deduplication, mirroring how a JS object accumulates
its keys across `pushKey` calls. -/
def dedupF (l : List String) : List String :=
  l.foldl (fun ks x => if x ∈ ks then ks else ks ++ [x]) []

/-! ## Helper lemmas -/

theorem foldl_add_eq {R : Type} (f : R → ℚ) (l : List R) (a : ℚ) :
    l.foldl (fun s r => s + f r) a = a + (l.map f).sum := by
  induction l generalizing a with
  | nil => simp
  | cons x xs ih => simp [ih, add_assoc]

theorem foldl_add_abs_eq {R : Type} (f : R → ℚ) (l : List R) (a : ℚ) :
    l.foldl (fun s r => s + |f r|) a = a + (l.map fun r => |f r|).sum := by
  induction l generalizing a with
  | nil => simp
  | cons x xs ih => simp [ih, add_assoc]

theorem sumNetPnlA_eq (rows : List RecordA) :
    sumNetPnlA rows = (rows.map fun r => r.netPnl).sum := by
  simpa using foldl_add_eq (fun r : RecordA => r.netPnl) rows 0

theorem sumNetPnlB_eq (rows : List RecordB) :
    sumNetPnlB rows = (rows.map fun r => r.netPnl).sum := by
  simpa using foldl_add_eq (fun r : RecordB => r.netPnl) rows 0

theorem foldl_min_le_init (xs : List ℚ) (a : ℚ) : xs.foldl min a ≤ a := by
  induction xs generalizing a with
  | nil => simp
  | cons x xs ih => exact le_trans (ih (min a x)) (min_le_left a x)

theorem foldl_min_le_mem (xs : List ℚ) (a : ℚ) : ∀ y ∈ xs, xs.foldl min a ≤ y := by
  induction xs generalizing a with
  | nil => simp
  | cons x xs ih =>
    intro y hy
    rcases List.mem_cons.mp hy with h | h
    · subst h; exact le_trans (foldl_min_le_init xs (min a y)) (min_le_right a y)
    · exact ih (min a x) y h

theorem foldl_min_mem (xs : List ℚ) (a : ℚ) : xs.foldl min a = a ∨ xs.foldl min a ∈ xs := by
  induction xs generalizing a with
  | nil => simp
  | cons x xs ih =>
    rcases ih (min a x) with h | h
    · rcases min_cases a x with ⟨he, _⟩ | ⟨he, _⟩
      · left; rw [List.foldl_cons, h, he]
      · right; rw [List.foldl_cons, h, he]; exact List.mem_cons_self x xs
    · right; exact List.mem_cons_of_mem x h

theorem listMin_mem (l : List ℚ) (h : l ≠ []) : listMin l ∈ l := by
  cases l with
  | nil => exact absurd rfl h
  | cons x xs =>
    rcases foldl_min_mem xs x with h2 | h2
    · rw [listMin, h2]; exact List.mem_cons_self x xs
    · exact List.mem_cons_of_mem x (listMin.eq_2 x xs ▸ h2)

theorem listMin_le (l : List ℚ) (y : ℚ) (hy : y ∈ l) : listMin l ≤ y := by
  cases l with
  | nil => simp at hy
  | cons x xs =>
    rcases List.mem_cons.mp hy with h | h
    · subst h; exact foldl_min_le_init xs y
    · exact foldl_min_le_mem xs x y h

section ObjLemmas

variable {R : Type}

theorem hasKey_iff_mem (o : List (String × List R)) (k : String) :
    hasKey o k = true ↔ k ∈ keysOf o := by
  simp only [hasKey, keysOf, List.any_eq_true, List.mem_map, decide_eq_true_eq]

theorem objGet_cons_self (kv : String × List R) (o : List (String × List R)) (k : String)
    (h : kv.1 = k) : objGet (kv :: o) k = some kv.2 := by
  simp [objGet, List.find?_cons_of_pos, h]

theorem objGet_cons_ne (kv : String × List R) (o : List (String × List R)) (k : String)
    (h : ¬kv.1 = k) : objGet (kv :: o) k = objGet o k := by
  simp only [objGet]
  rw [List.find?_cons_of_neg]
  simp [h]

theorem hasKey_isSome (o : List (String × List R)) (k : String) :
    hasKey o k = (objGet o k).isSome := by
  induction o with
  | nil => rfl
  | cons kv rest ih =>
    by_cases h : kv.1 = k
    · rw [objGet_cons_self kv rest k h]
      simp [hasKey, h]
    · rw [objGet_cons_ne kv rest k h, ← ih]
      simp [hasKey, h]

theorem hasKey_false_get_none (o : List (String × List R)) (k : String)
    (h : ¬hasKey o k = true) : objGet o k = none := by
  cases he : objGet o k with
  | none => rfl
  | some v => exact absurd (by rw [hasKey_isSome, he]; rfl) h

theorem objGet_pushExisting_self (o : List (String × List R)) (k : String) (r : R) :
    objGet (pushExisting o k r) k = (objGet o k).map fun v => v ++ [r] := by
  induction o with
  | nil => rfl
  | cons kv rest ih =>
    by_cases h : kv.1 = k
    · simp only [pushExisting, List.map_cons, if_pos h]
      rw [objGet_cons_self (kv.1, kv.2 ++ [r]) (List.map (fun kv => if kv.1 = k then (kv.1, kv.2 ++ [r]) else kv) rest) k h]
      rw [objGet_cons_self kv rest k h]
      rfl
    · simp only [pushExisting, List.map_cons, if_neg h]
      rw [objGet_cons_ne kv (List.map (fun kv => if kv.1 = k then (kv.1, kv.2 ++ [r]) else kv) rest) k h]
      rw [objGet_cons_ne kv rest k h]
      exact ih

theorem objGet_pushExisting_ne (o : List (String × List R)) (k k' : String) (r : R)
    (h : k' ≠ k) : objGet (pushExisting o k r) k' = objGet o k' := by
  induction o with
  | nil => rfl
  | cons kv rest ih =>
    by_cases hk : kv.1 = k
    · have hne : ¬(kv.1, kv.2 ++ [r]).1 = k' := by
        intro e
        exact h (by rw [← e, hk])
      simp only [pushExisting, List.map_cons, if_pos hk]
      rw [objGet_cons_ne (kv.1, kv.2 ++ [r]) (List.map (fun kv => if kv.1 = k then (kv.1, kv.2 ++ [r]) else kv) rest) k' hne]
      rw [objGet_cons_ne kv rest k' (by rw [hk]; exact fun e => h e.symm)]
      exact ih
    · by_cases hk' : kv.1 = k'
      · simp only [pushExisting, List.map_cons, if_neg hk]
        rw [objGet_cons_self kv (List.map (fun kv => if kv.1 = k then (kv.1, kv.2 ++ [r]) else kv) rest) k' hk']
        rw [objGet_cons_self kv rest k' hk']
      · simp only [pushExisting, List.map_cons, if_neg hk]
        rw [objGet_cons_ne kv (List.map (fun kv => if kv.1 = k then (kv.1, kv.2 ++ [r]) else kv) rest) k' hk']
        rw [objGet_cons_ne kv rest k' hk']
        exact ih

theorem keysOf_pushExisting (o : List (String × List R)) (k : String) (r : R) :
    keysOf (pushExisting o k r) = keysOf o := by
  simp only [keysOf, pushExisting, List.map_map]
  apply List.map_congr_left
  intro kv _
  by_cases h : kv.1 = k <;> simp [h]

theorem objGet_append_single_ne (o : List (String × List R)) (k k' : String) (v : List R)
    (h : k' ≠ k) : objGet (o ++ [(k, v)]) k' = objGet o k' := by
  induction o with
  | nil =>
    simp only [List.nil_append]
    rw [objGet_cons_ne (k, v) [] k' (fun e => h e.symm)]
  | cons kv rest ih =>
    by_cases hk : kv.1 = k'
    · rw [List.cons_append]
      rw [objGet_cons_self kv (rest ++ [(k, v)]) k' hk]
      rw [objGet_cons_self kv rest k' hk]
    · rw [List.cons_append]
      rw [objGet_cons_ne kv (rest ++ [(k, v)]) k' hk]
      rw [objGet_cons_ne kv rest k' hk]
      exact ih

theorem objGet_append_single_self_of_none (o : List (String × List R)) (k : String) (v : List R)
    (h : objGet o k = none) : objGet (o ++ [(k, v)]) k = some v := by
  induction o with
  | nil => simp [objGet]
  | cons kv rest ih =>
    by_cases hk : kv.1 = k
    · rw [objGet_cons_self kv rest k hk] at h
      exact absurd h (by simp)
    · rw [objGet_cons_ne kv rest k hk] at h
      rw [List.cons_append]
      rw [objGet_cons_ne kv (rest ++ [(k, v)]) k hk]
      exact ih h

theorem objGet_pushKey_self (o : List (String × List R)) (k : String) (r : R) :
    objGet (pushKey o k r) k = some ((objGet o k).getD [] ++ [r]) := by
  unfold pushKey
  by_cases h : hasKey o k
  · rw [if_pos h, objGet_pushExisting_self]
    have hs : (objGet o k).isSome = true := by rw [← hasKey_isSome]; exact h
    rcases Option.isSome_iff_exists.mp hs with ⟨v, hv⟩
    rw [hv]; rfl
  · rw [if_neg h]
    have hn : objGet o k = none := hasKey_false_get_none o k h
    rw [objGet_append_single_self_of_none o k [r] hn, hn]
    rfl

theorem objGet_pushKey_ne (o : List (String × List R)) (k k' : String) (r : R)
    (h : k' ≠ k) : objGet (pushKey o k r) k' = objGet o k' := by
  unfold pushKey
  by_cases hk : hasKey o k
  · rw [if_pos hk]; exact objGet_pushExisting_ne o k k' r h
  · rw [if_neg hk]; exact objGet_append_single_ne o k k' [r] h

theorem keysOf_pushKey (o : List (String × List R)) (k : String) (r : R) :
    keysOf (pushKey o k r) = if k ∈ keysOf o then keysOf o else keysOf o ++ [k] := by
  unfold pushKey
  by_cases h : hasKey o k
  · rw [if_pos h, keysOf_pushExisting, if_pos ((hasKey_iff_mem o k).mp h)]
  · rw [if_neg h, if_neg (fun hm => h ((hasKey_iff_mem o k).mpr hm))]
    simp [keysOf]

end ObjLemmas

section GroupLemmas

variable {R : Type}

theorem groupFold_get_some (key : R → String) (rows : List R) :
    ∀ (o : List (String × List R)) (k : String) (v : List R), objGet o k = some v →
      objGet (rows.foldl (fun o r => pushKey o (key r) r) o) k
        = some (v ++ rows.filter fun r => decide (key r = k)) := by
  induction rows with
  | nil => intro o k v h; simpa using h
  | cons r rs ih =>
    intro o k v h
    simp only [List.foldl_cons]
    by_cases hk : key r = k
    · have h2 : objGet (pushKey o (key r) r) k = some (v ++ [r]) := by
        rw [hk, objGet_pushKey_self, h]
        rfl
      rw [ih (pushKey o (key r) r) k (v ++ [r]) h2]
      simp [List.filter_cons, hk]
    · have h2 : objGet (pushKey o (key r) r) k = some v := by
        rw [objGet_pushKey_ne o (key r) k r (fun e => hk e.symm)]
        exact h
      rw [ih (pushKey o (key r) r) k v h2]
      simp [List.filter_cons, hk]

theorem groupFold_get_none (key : R → String) (rows : List R) :
    ∀ (o : List (String × List R)) (k : String), objGet o k = none →
      objGet (rows.foldl (fun o r => pushKey o (key r) r) o) k
        = if k ∈ rows.map key then some (rows.filter fun r => decide (key r = k)) else none := by
  induction rows with
  | nil => intro o k h; simpa using h
  | cons r rs ih =>
    intro o k h
    simp only [List.foldl_cons]
    by_cases hk : key r = k
    · have h2 : objGet (pushKey o (key r) r) k = some [r] := by
        rw [hk, objGet_pushKey_self, h]
        rfl
      rw [groupFold_get_some key rs (pushKey o (key r) r) k [r] h2]
      have hmem : k ∈ (r :: rs).map key := by simp [hk]
      rw [if_pos hmem]
      simp [List.filter_cons, hk]
    · have h2 : objGet (pushKey o (key r) r) k = none := by
        rw [objGet_pushKey_ne o (key r) k r (fun e => hk e.symm)]
        exact h
      rw [ih (pushKey o (key r) r) k h2]
      have hmem : (k ∈ (r :: rs).map key) ↔ (k ∈ rs.map key) := by
        simp only [List.map_cons, List.mem_cons]
        constructor
        · rintro (he | hm)
          · exact absurd he.symm hk
          · exact hm
        · exact Or.inr
      by_cases hm : k ∈ rs.map key
      · rw [if_pos hm, if_pos (hmem.mpr hm)]
        simp [List.filter_cons, hk]
      · rw [if_neg hm, if_neg (fun hx => hm (hmem.mp hx))]

theorem groupByKey_get (key : R → String) (rows : List R) (k : String) :
    objGet (groupByKey key rows) k
      = if k ∈ rows.map key then some (rows.filter fun r => decide (key r = k)) else none :=
  groupFold_get_none key rows [] k rfl

theorem groupFold_keys (key : R → String) (rows : List R) :
    ∀ o : List (String × List R),
      keysOf (rows.foldl (fun o r => pushKey o (key r) r) o)
        = rows.foldl (fun ks r => if key r ∈ ks then ks else ks ++ [key r]) (keysOf o) := by
  induction rows with
  | nil => intro o; rfl
  | cons r rs ih =>
    intro o
    simp only [List.foldl_cons]
    rw [ih (pushKey o (key r) r), keysOf_pushKey]

theorem groupByKey_keys (key : R → String) (rows : List R) :
    keysOf (groupByKey key rows) = dedupF (rows.map key) := by
  rw [groupByKey, groupFold_keys key rows [], dedupF, List.foldl_map]
  rfl

theorem dedupF_fold_nodup (l : List String) :
    ∀ acc : List String, acc.Nodup →
      (l.foldl (fun ks x => if x ∈ ks then ks else ks ++ [x]) acc).Nodup := by
  induction l with
  | nil => intro acc h; exact h
  | cons x xs ih =>
    intro acc h
    simp only [List.foldl_cons]
    by_cases hx : x ∈ acc
    · rw [if_pos hx]; exact ih acc h
    · rw [if_neg hx]
      exact ih (acc ++ [x]) (by simp [List.nodup_append, h, hx])

theorem dedupF_fold_mem (l : List String) :
    ∀ (acc : List String) (y : String),
      y ∈ l.foldl (fun ks x => if x ∈ ks then ks else ks ++ [x]) acc ↔ y ∈ acc ∨ y ∈ l := by
  induction l with
  | nil => intro acc y; simp
  | cons x xs ih =>
    intro acc y
    simp only [List.foldl_cons]
    by_cases hx : x ∈ acc
    · rw [if_pos hx, ih acc y]
      constructor
      · rintro (h | h)
        · exact Or.inl h
        · exact Or.inr (List.mem_cons_of_mem x h)
      · rintro (h | h)
        · exact Or.inl h
        · rcases List.mem_cons.mp h with he | he
          · exact Or.inl (he ▸ hx)
          · exact Or.inr he
    · rw [if_neg hx, ih (acc ++ [x]) y]
      simp [List.mem_append, List.mem_cons]
      tauto

theorem dedupF_nodup (l : List String) : (dedupF l).Nodup :=
  dedupF_fold_nodup l [] List.nodup_nil

theorem mem_dedupF (l : List String) (y : String) : y ∈ dedupF l ↔ y ∈ l := by
  have := dedupF_fold_mem l [] y
  simpa [dedupF] using this

theorem obj_eq_map_keys (o : List (String × List R)) (h : (keysOf o).Nodup) :
    o = (keysOf o).map fun k => (k, (objGet o k).getD []) := by
  induction o with
  | nil => rfl
  | cons kv rest ih =>
    have hkeys : keysOf (kv :: rest) = kv.1 :: keysOf rest := rfl
    rw [hkeys] at h ⊢
    have hnotin : kv.1 ∉ keysOf rest := (List.nodup_cons.mp h).1
    have hrest : (keysOf rest).Nodup := (List.nodup_cons.mp h).2
    rw [List.map_cons]
    have hhead : (kv.1, (objGet (kv :: rest) kv.1).getD []) = kv := by
      rw [objGet_cons_self kv rest kv.1 rfl]
      rfl
    rw [hhead]
    have htail : ((keysOf rest).map fun k => (k, (objGet (kv :: rest) k).getD []))
        = (keysOf rest).map fun k => (k, (objGet rest k).getD []) := by
      apply List.map_congr_left
      intro k hk
      have hne : ¬kv.1 = k := fun e => hnotin (e ▸ hk)
      rw [objGet_cons_ne kv rest k hne]
    rw [htail, ← ih hrest]

end GroupLemmas

section PermLemmas

variable {R : Type}

theorem perm_flatten_filter (key : R → String) :
    ∀ (keys : List String) (rows : List R), keys.Nodup → (∀ r ∈ rows, key r ∈ keys) →
      ((keys.map fun k => rows.filter fun r => decide (key r = k)).flatten).Perm rows := by
  intro keys
  induction keys with
  | nil =>
    intro rows _ hcov
    have hrows : rows = [] := by
      cases rows with
      | nil => rfl
      | cons a as => exact absurd (hcov a (List.mem_cons_self a as)) (List.not_mem_nil (key a))
    subst hrows
    simp
  | cons k ks ih =>
    intro rows hnd hcov
    have hk : k ∉ ks := (List.nodup_cons.mp hnd).1
    have hks : ks.Nodup := (List.nodup_cons.mp hnd).2
    simp only [List.map_cons, List.flatten_cons]
    have hmap : (ks.map fun k2 => rows.filter fun r => decide (key r = k2))
        = ks.map fun k2 =>
            (rows.filter fun r => !decide (key r = k)).filter fun r => decide (key r = k2) := by
      apply List.map_congr_left
      intro k2 hk2
      rw [List.filter_filter]
      apply List.filter_congr
      intro r _
      by_cases he : key r = k2
      · have hnk : ¬k2 = k := fun e => hk (e ▸ hk2)
        have hne : ¬key r = k := fun e => hk ((he.symm.trans e) ▸ hk2)
        simp [he, hne, hnk]
      · simp [he]
    rw [hmap]
    have hcov2 : ∀ r ∈ rows.filter (fun r => !decide (key r = k)), key r ∈ ks := by
      intro r hr
      rcases List.mem_filter.mp hr with ⟨hrr, hcond⟩
      have hne : ¬key r = k := by simpa using hcond
      exact (List.mem_cons.mp (hcov r hrr)).resolve_left hne
    have hperm2 := ih (rows.filter fun r => !decide (key r = k)) hks hcov2
    exact (List.Perm.append_left _ hperm2).trans (List.filter_append_perm _ rows)

/-- The buckets of `groupByKey`, listed in key order, are exactly the
filters of the input by each distinct key. -/
theorem groupByKey_eq_map_filter (key : R → String) (rows : List R) :
    groupByKey key rows
      = (dedupF (rows.map key)).map fun k => (k, rows.filter fun r => decide (key r = k)) := by
  have hkeys := groupByKey_keys key rows
  have hnd : (keysOf (groupByKey key rows)).Nodup := by
    rw [hkeys]; exact dedupF_nodup _
  have hrec := obj_eq_map_keys (groupByKey key rows) hnd
  rw [hkeys] at hrec
  rw [hrec]
  apply List.map_congr_left
  intro k hkmem
  have hmem : k ∈ rows.map key := (mem_dedupF (rows.map key) k).mp hkmem
  rw [groupByKey_get key rows k, if_pos hmem]
  rfl

theorem groupByKey_flatten_perm (key : R → String) (rows : List R) :
    (((groupByKey key rows).map fun kv => kv.2).flatten).Perm rows := by
  rw [groupByKey_eq_map_filter key rows, List.map_map]
  have hcomp : ((fun kv : String × List R => kv.2) ∘ fun k => (k, rows.filter fun r => decide (key r = k)))
      = fun k => rows.filter fun r => decide (key r = k) := rfl
  rw [hcomp]
  apply perm_flatten_filter key (dedupF (rows.map key)) rows (dedupF_nodup _)
  intro r hr
  exact (mem_dedupF (rows.map key) (key r)).mpr (List.mem_map_of_mem key hr)

end PermLemmas

section DayLemmas

variable {R : Type}

theorem dayFold_keys (dn : R → String) (rows : List R) :
    ∀ o : List (String × List R),
      keysOf (rows.foldl
        (fun o r => if dn r ≠ "" ∧ hasKey o (dn r) then pushExisting o (dn r) r else o) o)
      = keysOf o := by
  induction rows with
  | nil => intro o; rfl
  | cons r rs ih =>
    intro o
    simp only [List.foldl_cons]
    by_cases hc : dn r ≠ "" ∧ hasKey o (dn r)
    · rw [if_pos hc, ih (pushExisting o (dn r) r), keysOf_pushExisting]
    · rw [if_neg hc, ih o]

theorem dayFold_get_some (dn : R → String) (rows : List R) :
    ∀ (o : List (String × List R)) (k : String) (v : List R), k ≠ "" → objGet o k = some v →
      objGet (rows.foldl
        (fun o r => if dn r ≠ "" ∧ hasKey o (dn r) then pushExisting o (dn r) r else o) o) k
      = some (v ++ rows.filter fun r => decide (dn r = k)) := by
  induction rows with
  | nil => intro o k v _ h; simpa using h
  | cons r rs ih =>
    intro o k v hke h
    simp only [List.foldl_cons]
    by_cases hk : dn r = k
    · have hc : dn r ≠ "" ∧ hasKey o (dn r) := by
        constructor
        · rw [hk]; exact hke
        · rw [hk, hasKey_isSome, h]; rfl
      rw [if_pos hc]
      have h2 : objGet (pushExisting o (dn r) r) k = some (v ++ [r]) := by
        rw [hk, objGet_pushExisting_self, h]
        rfl
      rw [ih (pushExisting o (dn r) r) k (v ++ [r]) hke h2]
      simp [List.filter_cons, hk]
    · by_cases hc : dn r ≠ "" ∧ hasKey o (dn r)
      · rw [if_pos hc]
        have h2 : objGet (pushExisting o (dn r) r) k = some v := by
          rw [objGet_pushExisting_ne o (dn r) k r (fun e => hk e.symm)]
          exact h
        rw [ih (pushExisting o (dn r) r) k v hke h2]
        simp [List.filter_cons, hk]
      · rw [if_neg hc, ih o k v hke h]
        simp [List.filter_cons, hk]

theorem dayFold_get_none (dn : R → String) (rows : List R) :
    ∀ (o : List (String × List R)) (k : String), objGet o k = none →
      objGet (rows.foldl
        (fun o r => if dn r ≠ "" ∧ hasKey o (dn r) then pushExisting o (dn r) r else o) o) k
      = none := by
  induction rows with
  | nil => intro o k h; simpa using h
  | cons r rs ih =>
    intro o k h
    simp only [List.foldl_cons]
    by_cases hc : dn r ≠ "" ∧ hasKey o (dn r)
    · rw [if_pos hc]
      apply ih (pushExisting o (dn r) r) k
      by_cases hk : dn r = k
      · rw [hk] at hc
        have : (objGet o k).isSome = true := by rw [← hasKey_isSome]; exact hc.2
        rw [h] at this
        exact absurd this (by simp)
      · rw [objGet_pushExisting_ne o (dn r) k r (fun e => hk e.symm)]
        exact h
    · rw [if_neg hc]
      exact ih o k h

theorem objGet_initDayBuckets_mem (ds : List String) (d : String) (hd : d ∈ ds) :
    objGet (ds.map fun x => (x, ([] : List R))) d = some [] := by
  induction ds with
  | nil => simp at hd
  | cons x xs ih =>
    rcases List.mem_cons.mp hd with he | hm
    · rw [List.map_cons, objGet_cons_self (x, ([] : List R)) _ d he.symm]
    · by_cases hx : x = d
      · rw [List.map_cons, objGet_cons_self (x, ([] : List R)) _ d hx]
      · rw [List.map_cons, objGet_cons_ne (x, ([] : List R)) _ d hx]
        exact ih hm

theorem objGet_initDayBuckets_not_mem (ds : List String) (d : String) (hd : d ∉ ds) :
    objGet (ds.map fun x => (x, ([] : List R))) d = none := by
  induction ds with
  | nil => rfl
  | cons x xs ih =>
    have hx : ¬x = d := fun e => hd (e ▸ List.mem_cons_self x xs)
    rw [List.map_cons, objGet_cons_ne (x, ([] : List R)) _ d hx]
    exact ih fun hm => hd (List.mem_cons_of_mem x hm)

theorem groupByDayG_keys (dn : R → String) (rows : List R) :
    keysOf (groupByDayG dn rows) = DAYS := by
  rw [groupByDayG, dayFold_keys dn rows (initDayBuckets R)]
  rfl

theorem groupByDayG_get_mem (dn : R → String) (rows : List R) (d : String) (hd : d ∈ DAYS) :
    objGet (groupByDayG dn rows) d = some (rows.filter fun r => decide (dn r = d)) := by
  have hde : d ≠ "" := by fin_cases hd <;> decide
  have hinit : objGet (initDayBuckets R) d = some [] := objGet_initDayBuckets_mem DAYS d hd
  rw [groupByDayG]
  rw [dayFold_get_some dn rows (initDayBuckets R) d [] hde hinit]
  rfl

theorem groupByDayG_get_not_mem (dn : R → String) (rows : List R) (d : String) (hd : d ∉ DAYS) :
    objGet (groupByDayG dn rows) d = none := by
  have hinit : objGet (initDayBuckets R) d = none := objGet_initDayBuckets_not_mem DAYS d hd
  rw [groupByDayG]
  exact dayFold_get_none dn rows (initDayBuckets R) d hinit

end DayLemmas

/-! ## Claim theorems -/

/-- C1: `parseCurrency` (variant B, part_000 lines 7-15) maps `"$1,234.56"`
to `1234.56`, the empty string to `0` and `"garbage"` to `0`, and is total
by construction; but on the parenthesized input `"(123.45)"` it returns `0`,
not `-123.45`: `parseFloat("(123.45)")` is `NaN` because of the leading
parenthesis, so the `isNaN` guard returns `0` before the
parenthesis-negation branch can fire.  (The branch is reachable only for
inputs whose numeric prefix precedes the parenthesis, e.g. `"12(3"`.) -/
theorem parseCurrencyB_scenario :
    parseCurrencyB "$1,234.56" = 1234.56
    ∧ parseCurrencyB "" = 0
    ∧ parseCurrencyB "garbage" = 0
    ∧ parseCurrencyB "(123.45)" = 0
    ∧ parseCurrencyB "12(3" = -12 := by
  refine ⟨?_, rfl, rfl, rfl, ?_⟩
  · have h : parseCurrencyB "$1,234.56"
        = 1 * (((1234 : ℕ) : ℚ) + ((56 : ℕ) : ℚ) / ((10 : ℚ) ^ (2 : ℕ))) * ((10 : ℚ) ^ (0 : ℤ)) :=
      rfl
    rw [h]; norm_num
  · have h : parseCurrencyB "12(3"
        = -|1 * (((12 : ℕ) : ℚ) + ((0 : ℕ) : ℚ) / ((10 : ℚ) ^ (0 : ℕ))) * ((10 : ℚ) ^ (0 : ℤ))| :=
      rfl
    rw [h]; norm_num

/-- C4: for every record list and in both variants, the summary `netPnl`
equals exactly the sum of the records' `netPnl` fields. -/
theorem netPnl_sum_exact :
    (∀ rows : List RecordA, (computeStatsA rows).netPnl = (rows.map fun r => r.netPnl).sum)
    ∧ (∀ rows : List RecordB, (computeStatsB rows).netPnl = (rows.map fun r => r.netPnl).sum) := by
  constructor
  · intro rows
    rw [computeStatsA, computeStatsAWith]
    by_cases h : rows.length = 0
    · rw [if_pos h]
      have he : rows = [] := List.length_eq_zero.mp h
      subst he; rfl
    · rw [if_neg h]
      exact sumNetPnlA_eq rows
  · intro rows
    rw [computeStatsB, computeStatsBWith]
    by_cases h : rows.length = 0
    · rw [if_pos h]
      have he : rows = [] := List.length_eq_zero.mp h
      subst he; rfl
    · rw [if_neg h]
      exact sumNetPnlB_eq rows

/-- A variant A record with the given net P&L and win percentage and
otherwise neutral fields, for concrete test inputs. -/
def sampleA (net w : ℚ) : RecordA :=
  ⟨none, "2024-01-02", "AAA", net, w, 0, 0, none, ""⟩

theorem computeStatsA_ne_empty (rows : List RecordA) (h : rows.length ≠ 0) :
    computeStatsA rows
      = { totalTrades := rows.length
          winningTrades := (winsA rows).length
          losingTrades := (lossesA rows).length
          winRate := winRateAWith (fun a b => a / b) rows
          grossProfit := grossProfitA rows
          grossLoss := grossLossA rows
          profitFactor := profitFactorAWith (fun a b => a / b) rows
          netPnl := sumNetPnlA rows
          expectancy := expectancyAWith (fun a b => a / b) rows
          avgWin := avgWinAWith (fun a b => a / b) rows
          avgLoss := avgLossAWith (fun a b => a / b) rows
          largestWin := largestWinA rows
          largestLoss := largestLossA rows
          avgWinPct := avgWinPctAWith (fun a b => a / b) rows } := by
  rw [computeStatsA, computeStatsAWith, if_neg h]

/-- C3 counterexample: with trade records of net +999 and -1, the profit
factor is the ratio 999/1 = 999 even though the negative gross total is
1 ≠ 0, so "profitFactor equals 999 exactly when total positive gross > 0
and total negative gross = 0" fails in the left-to-right direction. -/
theorem profitFactor_999_not_iff :
    ¬(((computeStatsA [sampleA 999 0, sampleA (-1) 0]).profitFactor = 999)
      ↔ (0 < grossProfitA [sampleA 999 0, sampleA (-1) 0]
          ∧ grossLossA [sampleA 999 0, sampleA (-1) 0] = 0)) := by
  have hGP : grossProfitA [sampleA 999 0, sampleA (-1) 0] = 999 := by
    have h : grossProfitA [sampleA 999 0, sampleA (-1) 0] = (0 : ℚ) + 999 := rfl
    rw [h]; norm_num
  have hGL : grossLossA [sampleA 999 0, sampleA (-1) 0] = 1 := by
    have h : grossLossA [sampleA 999 0, sampleA (-1) 0] = |(0 : ℚ) + -1| := rfl
    rw [h]; norm_num
  have hPF : (computeStatsA [sampleA 999 0, sampleA (-1) 0]).profitFactor = 999 := by
    rw [computeStatsA_ne_empty [sampleA 999 0, sampleA (-1) 0] (by norm_num)]
    show profitFactorAWith (fun a b => a / b) [sampleA 999 0, sampleA (-1) 0] = 999
    rw [profitFactorAWith, hGL, hGP]
    norm_num
  intro hiff
  have h2 := (hiff.mp hPF).2
  rw [hGL] at h2
  exact absurd h2 (by norm_num)

theorem sum_filter_pos_nonneg {R : Type} (f : R → ℚ) (l : List R) :
    0 ≤ ((l.filter fun r => decide (0 < f r)).map f).sum := by
  induction l with
  | nil => simp
  | cons x xs ih =>
    by_cases h : 0 < f x
    · rw [List.filter_cons, if_pos (by simpa using h), List.map_cons, List.sum_cons]
      exact add_nonneg (le_of_lt h) ih
    · rw [List.filter_cons, if_neg (by simpa using h)]
      exact ih

theorem grossProfitA_nonneg (rows : List RecordA) : 0 ≤ grossProfitA rows := by
  rw [grossProfitA, sumNetPnlA_eq]
  exact sum_filter_pos_nonneg (fun r => r.netPnl) rows

/-- C3 (amended): in both variants, `profitFactor` is `999` IF the positive
gross total is positive and the negative gross total is zero, `0` if both
totals are zero, and the exact ratio whenever the negative total is
nonzero — but in the ratio case the value `999` can also occur
(see the counterexample), so "exactly when" does not hold. -/
theorem profitFactor_sentinel :
    (∀ rows : List RecordA,
      (grossLossA rows = 0 → 0 < grossProfitA rows → (computeStatsA rows).profitFactor = 999)
      ∧ (grossLossA rows = 0 → grossProfitA rows = 0 → (computeStatsA rows).profitFactor = 0)
      ∧ (0 < grossLossA rows →
          (computeStatsA rows).profitFactor = grossProfitA rows / grossLossA rows))
    ∧ (∀ rows : List RecordB,
      (grossLossDaysB rows = 0 → 0 < grossProfitDaysB rows →
          (computeStatsB rows).profitFactor = 999)
      ∧ (grossLossDaysB rows = 0 → grossProfitDaysB rows = 0 →
          (computeStatsB rows).profitFactor = 0)
      ∧ (0 < grossLossDaysB rows →
          (computeStatsB rows).profitFactor = grossProfitDaysB rows / grossLossDaysB rows)) := by
  constructor
  · intro rows
    by_cases hlen : rows.length = 0
    · have he : rows = [] := List.length_eq_zero.mp hlen
      subst he
      refine ⟨?_, ?_, ?_⟩
      · intro _ hp
        have : grossProfitA [] = 0 := rfl
        rw [this] at hp
        exact absurd hp (by norm_num)
      · intro _ _
        rfl
      · intro hl
        have : grossLossA [] = 0 := rfl
        rw [this] at hl
        exact absurd hl (by norm_num)
    · have hpf : (computeStatsA rows).profitFactor = profitFactorAWith (fun a b => a / b) rows := by
        rw [computeStatsA_ne_empty rows hlen]
      refine ⟨?_, ?_, ?_⟩
      · intro hl hp
        rw [hpf, profitFactorAWith, hl, if_neg (by norm_num), if_pos hp]
      · intro hl hp
        rw [hpf, profitFactorAWith, hl, hp, if_neg (by norm_num), if_neg (by norm_num)]
      · intro hl
        rw [hpf, profitFactorAWith, if_pos hl]
  · intro rows
    by_cases hlen : rows.length = 0
    · have he : rows = [] := List.length_eq_zero.mp hlen
      subst he
      refine ⟨?_, ?_, ?_⟩
      · intro _ hp
        have : grossProfitDaysB [] = 0 := rfl
        rw [this] at hp
        exact absurd hp (by norm_num)
      · intro _ _
        rfl
      · intro hl
        have : grossLossDaysB [] = 0 := rfl
        rw [this] at hl
        exact absurd hl (by norm_num)
    · have hpf : (computeStatsB rows).profitFactor = profitFactorBWith (fun a b => a / b) rows := by
        rw [computeStatsB, computeStatsBWith, if_neg hlen]
      refine ⟨?_, ?_, ?_⟩
      · intro hl hp
        rw [hpf, profitFactorBWith, hl, if_neg (by norm_num), if_pos hp]
      · intro hl hp
        rw [hpf, profitFactorBWith, hl, hp, if_neg (by norm_num), if_neg (by norm_num)]
      · intro hl
        rw [hpf, profitFactorBWith, if_pos hl]

theorem foldl_add_id (l : List ℚ) (a : ℚ) : l.foldl (fun x y => x + y) a = a + l.sum := by
  induction l generalizing a with
  | nil => simp
  | cons x xs ih => simp [ih, add_assoc]

/-- C10: in variant A, `avgWinPct` is the arithmetic mean of the strictly
positive `winPct` values only (records with `winPct ≤ 0` count in neither
numerator nor denominator) and `0` when no positive value exists; a row
whose `Win %` cell is absent gets `winPct = 0` and is therefore excluded. -/
theorem avgWinPct_mean_positive :
    (∀ rows : List RecordA,
      (computeStatsA rows).avgWinPct
        = if ((rows.map fun r => r.winPct).filter fun p => decide (0 < p)) = [] then 0
          else ((rows.map fun r => r.winPct).filter fun p => decide (0 < p)).sum
              / ((((rows.map fun r => r.winPct).filter fun p => decide (0 < p)).length : ℕ) : ℚ))
    ∧ ∀ (jsDate : String → Option JSDate) (tr : RawRow),
        tr.winBadgeCell = none → tr.winPctCell = none → (mkRecordA jsDate tr).winPct = 0 := by
  constructor
  · intro rows
    by_cases hlen : rows.length = 0
    · have he : rows = [] := List.length_eq_zero.mp hlen
      subst he
      rfl
    · rw [computeStatsA_ne_empty rows hlen]
      show avgWinPctAWith (fun a b => a / b) rows = _
      rw [avgWinPctAWith]
      by_cases hp : (winPctsA rows).length = 0
      · rw [if_neg (not_not_intro hp)]
        have he : winPctsA rows = [] := List.length_eq_zero.mp hp
        rw [show ((rows.map fun r => r.winPct).filter fun p => decide (0 < p)) = winPctsA rows
          from rfl, he]
        rfl
      · rw [if_pos hp]
        have hne : winPctsA rows ≠ [] := fun he => hp (by rw [he]; rfl)
        rw [show ((rows.map fun r => r.winPct).filter fun p => decide (0 < p)) = winPctsA rows
          from rfl, if_neg hne, foldl_add_id, zero_add]
  · intro jsDate tr h1 h2
    show parsePct (match tr.winBadgeCell with
      | some t => jsTrim t
      | none => getCell tr.winPctCell) = 0
    rw [h1, h2]
    rfl

/-- C9: in either variant, `parseTable` keeps the record built from a row
if and only if both its `symbol` and its `dateStr` are non-empty; dropped
rows leave no placeholder, and kept records stay in source order (the
output is a sublist of the per-row record list). -/
theorem parseTable_keeps_iff :
    ∀ (jsDate : String → Option JSDate) (trs : List RawRow),
      (parseTableA jsDate trs).Sublist (trs.map (mkRecordA jsDate))
      ∧ (∀ rec : RecordA, rec ∈ parseTableA jsDate trs
          ↔ rec ∈ trs.map (mkRecordA jsDate) ∧ rec.symbol ≠ "" ∧ rec.dateStr ≠ "")
      ∧ (parseTableB jsDate trs).Sublist (trs.map (mkRecordB jsDate))
      ∧ (∀ rec : RecordB, rec ∈ parseTableB jsDate trs
          ↔ rec ∈ trs.map (mkRecordB jsDate) ∧ rec.symbol ≠ "" ∧ rec.dateStr ≠ "") := by
  intro jsDate trs
  refine ⟨List.filter_sublist _, ?_, List.filter_sublist _, ?_⟩
  · intro rec
    rw [parseTableA, List.mem_filter]
    simp only [Bool.and_eq_true, decide_eq_true_eq, and_assoc]
  · intro rec
    rw [parseTableB, List.mem_filter]
    simp only [Bool.and_eq_true, decide_eq_true_eq, and_assoc]

section DivSafety

variable (dv : ℚ → ℚ → ℚ)

theorem winRateAWith_eq_div (hd : ∀ a b : ℚ, b ≠ 0 → dv a b = a / b) (rows : List RecordA) :
    winRateAWith dv rows = winRateAWith (fun a b => a / b) rows := by
  rw [winRateAWith, winRateAWith]
  by_cases h : rows.length = 0
  · rw [if_neg (not_not_intro h), if_neg (not_not_intro h)]
  · rw [if_pos h, if_pos h, hd _ _ (Nat.cast_ne_zero.mpr h)]

theorem profitFactorAWith_eq_div (hd : ∀ a b : ℚ, b ≠ 0 → dv a b = a / b) (rows : List RecordA) :
    profitFactorAWith dv rows = profitFactorAWith (fun a b => a / b) rows := by
  rw [profitFactorAWith, profitFactorAWith]
  by_cases h : 0 < grossLossA rows
  · rw [if_pos h, if_pos h, hd _ _ (ne_of_gt h)]
  · rw [if_neg h, if_neg h]

theorem avgWinAWith_eq_div (hd : ∀ a b : ℚ, b ≠ 0 → dv a b = a / b) (rows : List RecordA) :
    avgWinAWith dv rows = avgWinAWith (fun a b => a / b) rows := by
  rw [avgWinAWith, avgWinAWith]
  by_cases h : (winsA rows).length = 0
  · rw [if_neg (not_not_intro h), if_neg (not_not_intro h)]
  · rw [if_pos h, if_pos h, hd _ _ (Nat.cast_ne_zero.mpr h)]

theorem avgLossAWith_eq_div (hd : ∀ a b : ℚ, b ≠ 0 → dv a b = a / b) (rows : List RecordA) :
    avgLossAWith dv rows = avgLossAWith (fun a b => a / b) rows := by
  rw [avgLossAWith, avgLossAWith]
  by_cases h : (lossesA rows).length = 0
  · rw [if_neg (not_not_intro h), if_neg (not_not_intro h)]
  · rw [if_pos h, if_pos h, hd _ _ (Nat.cast_ne_zero.mpr h)]

theorem avgWinPctAWith_eq_div (hd : ∀ a b : ℚ, b ≠ 0 → dv a b = a / b) (rows : List RecordA) :
    avgWinPctAWith dv rows = avgWinPctAWith (fun a b => a / b) rows := by
  rw [avgWinPctAWith, avgWinPctAWith]
  by_cases h : (winPctsA rows).length = 0
  · rw [if_neg (not_not_intro h), if_neg (not_not_intro h)]
  · rw [if_pos h, if_pos h, hd _ _ (Nat.cast_ne_zero.mpr h)]

theorem expectancyAWith_eq_div (hd : ∀ a b : ℚ, b ≠ 0 → dv a b = a / b) (rows : List RecordA) :
    expectancyAWith dv rows = expectancyAWith (fun a b => a / b) rows := by
  rw [expectancyAWith, expectancyAWith]
  by_cases h : rows.length = 0
  · rw [if_neg (not_not_intro h), if_neg (not_not_intro h)]
  · rw [if_pos h, if_pos h, winRateAWith_eq_div dv hd, avgWinAWith_eq_div dv hd,
      avgLossAWith_eq_div dv hd, hd _ _ (by norm_num : (100 : ℚ) ≠ 0)]

theorem computeStatsAWith_eq_div (hd : ∀ a b : ℚ, b ≠ 0 → dv a b = a / b) (rows : List RecordA) :
    computeStatsAWith dv rows = computeStatsA rows := by
  rw [computeStatsA, computeStatsAWith, computeStatsAWith]
  by_cases h : rows.length = 0
  · rw [if_pos h, if_pos h]
  · rw [if_neg h, if_neg h, winRateAWith_eq_div dv hd, profitFactorAWith_eq_div dv hd,
      expectancyAWith_eq_div dv hd, avgWinAWith_eq_div dv hd, avgLossAWith_eq_div dv hd,
      avgWinPctAWith_eq_div dv hd]

theorem dayWinRatePctBWith_eq_div (hd : ∀ a b : ℚ, b ≠ 0 → dv a b = a / b) (rows : List RecordB) :
    dayWinRatePctBWith dv rows = dayWinRatePctBWith (fun a b => a / b) rows := by
  rw [dayWinRatePctBWith, dayWinRatePctBWith]
  by_cases h : totalTradingDaysB rows = 0
  · rw [if_neg (not_not_intro h), if_neg (not_not_intro h)]
  · rw [if_pos h, if_pos h, hd _ _ (Nat.cast_ne_zero.mpr h)]

theorem profitFactorBWith_eq_div (hd : ∀ a b : ℚ, b ≠ 0 → dv a b = a / b) (rows : List RecordB) :
    profitFactorBWith dv rows = profitFactorBWith (fun a b => a / b) rows := by
  rw [profitFactorBWith, profitFactorBWith]
  by_cases h : 0 < grossLossDaysB rows
  · rw [if_pos h, if_pos h, hd _ _ (ne_of_gt h)]
  · rw [if_neg h, if_neg h]

theorem avgWinPerDayBWith_eq_div (hd : ∀ a b : ℚ, b ≠ 0 → dv a b = a / b) (rows : List RecordB) :
    avgWinPerDayBWith dv rows = avgWinPerDayBWith (fun a b => a / b) rows := by
  rw [avgWinPerDayBWith, avgWinPerDayBWith]
  by_cases h : (profitableRowsB rows).length = 0
  · rw [if_neg (not_not_intro h), if_neg (not_not_intro h)]
  · rw [if_pos h, if_pos h, hd _ _ (Nat.cast_ne_zero.mpr h)]

theorem avgLossPerDayBWith_eq_div (hd : ∀ a b : ℚ, b ≠ 0 → dv a b = a / b) (rows : List RecordB) :
    avgLossPerDayBWith dv rows = avgLossPerDayBWith (fun a b => a / b) rows := by
  rw [avgLossPerDayBWith, avgLossPerDayBWith]
  by_cases h : (losingRowsB rows).length = 0
  · rw [if_neg (not_not_intro h), if_neg (not_not_intro h)]
  · rw [if_pos h, if_pos h, hd _ _ (Nat.cast_ne_zero.mpr h)]

theorem expectancyBWith_eq_div (hd : ∀ a b : ℚ, b ≠ 0 → dv a b = a / b) (rows : List RecordB) :
    expectancyBWith dv rows = expectancyBWith (fun a b => a / b) rows := by
  rw [expectancyBWith, expectancyBWith, dayWinRatePctBWith_eq_div dv hd,
    avgWinPerDayBWith_eq_div dv hd, avgLossPerDayBWith_eq_div dv hd,
    hd _ _ (by norm_num : (100 : ℚ) ≠ 0)]

theorem computeStatsBWith_eq_div (hd : ∀ a b : ℚ, b ≠ 0 → dv a b = a / b) (rows : List RecordB) :
    computeStatsBWith dv rows = computeStatsB rows := by
  rw [computeStatsB, computeStatsBWith, computeStatsBWith]
  by_cases h : rows.length = 0
  · rw [if_pos h, if_pos h]
  · rw [if_neg h, if_neg h, dayWinRatePctBWith_eq_div dv hd, profitFactorBWith_eq_div dv hd,
      expectancyBWith_eq_div dv hd]

end DivSafety

/-- C2: both aggregators return the all-zero summary on the empty record
list, and neither ever divides by zero: every division site is guarded, so
replacing division by ANY function that agrees with it on nonzero
denominators leaves every summary unchanged.  The embedding is total, so no
exception, `NaN` or `Infinity` can arise in any field. -/
theorem computeStats_empty_and_guarded :
    computeStatsA [] = ⟨0, 0, 0, 0, 0, 0, 0, 0, 0, 0, 0, 0, 0, 0⟩
    ∧ computeStatsB [] = ⟨0, 0, 0, 0, 0, 0, 0, 0, 0, 0⟩
    ∧ (∀ dv : ℚ → ℚ → ℚ, (∀ a b : ℚ, b ≠ 0 → dv a b = a / b) →
        ∀ rows : List RecordA, computeStatsAWith dv rows = computeStatsA rows)
    ∧ (∀ dv : ℚ → ℚ → ℚ, (∀ a b : ℚ, b ≠ 0 → dv a b = a / b) →
        ∀ rows : List RecordB, computeStatsBWith dv rows = computeStatsB rows) :=
  ⟨rfl, rfl, fun dv hd rows => computeStatsAWith_eq_div dv hd rows,
    fun dv hd rows => computeStatsBWith_eq_div dv hd rows⟩

theorem groupByDayG_partition {R : Type} [DecidableEq R] (dn : R → String) (rows : List R)
    (hdn : ∀ r ∈ rows, dn r = "" ∨ dn r ∈ DAYS) :
    keysOf (groupByDayG dn rows) = DAYS
    ∧ (∀ d ∈ DAYS, objGet (groupByDayG dn rows) d
        = some (rows.filter fun r => decide (dn r = d)))
    ∧ (∀ r ∈ rows, dn r ≠ "" →
        (DAYS.filter fun d => decide (r ∈ (objGet (groupByDayG dn rows) d).getD [])).length = 1)
    ∧ (∀ r, dn r = "" → ∀ d, r ∉ (objGet (groupByDayG dn rows) d).getD []) := by
  have hget : ∀ d ∈ DAYS, objGet (groupByDayG dn rows) d
      = some (rows.filter fun r => decide (dn r = d)) := fun d hd =>
    groupByDayG_get_mem dn rows d hd
  have hbucket : ∀ (x : R) (d : String),
      x ∈ (objGet (groupByDayG dn rows) d).getD [] ↔ d ∈ DAYS ∧ x ∈ rows ∧ dn x = d := by
    intro x d
    by_cases hd : d ∈ DAYS
    · rw [hget d hd]
      simp only [Option.getD_some, List.mem_filter, decide_eq_true_eq]
      constructor
      · rintro ⟨h1, h2⟩; exact ⟨hd, h1, h2⟩
      · rintro ⟨_, h1, h2⟩; exact ⟨h1, h2⟩
    · rw [groupByDayG_get_not_mem dn rows d hd]
      simp only [Option.getD_none, List.not_mem_nil, false_iff]
      rintro ⟨h1, _, _⟩
      exact hd h1
  refine ⟨groupByDayG_keys dn rows, hget, ?_, ?_⟩
  · intro r hr hrne
    have hd : dn r ∈ DAYS := (hdn r hr).resolve_left hrne
    have hfc : (DAYS.filter fun d => decide (r ∈ (objGet (groupByDayG dn rows) d).getD []))
        = DAYS.filter fun d => decide (d = dn r) := by
      apply List.filter_congr
      intro d hdm
      have : (r ∈ (objGet (groupByDayG dn rows) d).getD []) ↔ (d = dn r) := by
        rw [hbucket r d]
        constructor
        · rintro ⟨_, _, h⟩; exact h.symm
        · intro h; exact ⟨hdm, hr, h.symm⟩
      exact decide_eq_decide.mpr this
    rw [hfc]
    generalize hx : dn r = x at hd
    fin_cases hd <;> rfl
  · intro r hre d hmem
    rcases (hbucket r d).mp hmem with ⟨hd, _, he⟩
    rw [hre] at he
    revert hd
    rw [← he]
    decide

/-- C5: in both variants, grouping by weekday yields exactly the seven
weekday buckets (present even when empty); when every record's `dayName` is
empty or one of the seven labels, each bucket is the ordered filter of the
records with that label, every record with a non-empty `dayName` lies in
exactly one bucket, and a record with empty `dayName` (unparseable date)
lies in no bucket.  The final conjuncts show the row normalizer only ever
produces records satisfying that side condition. -/
theorem groupByDayOfWeek_partition :
    (∀ rows : List RecordA, (∀ r ∈ rows, r.dayName = "" ∨ r.dayName ∈ DAYS) →
      keysOf (groupByDayOfWeekA rows) = DAYS
      ∧ (∀ d ∈ DAYS, objGet (groupByDayOfWeekA rows) d
          = some (rows.filter fun r => decide (r.dayName = d)))
      ∧ (∀ r ∈ rows, r.dayName ≠ "" →
          (DAYS.filter fun d =>
            decide (r ∈ (objGet (groupByDayOfWeekA rows) d).getD [])).length = 1)
      ∧ (∀ r : RecordA, r.dayName = "" → ∀ d, r ∉ (objGet (groupByDayOfWeekA rows) d).getD []))
    ∧ (∀ rows : List RecordB, (∀ r ∈ rows, r.dayName = "" ∨ r.dayName ∈ DAYS) →
      keysOf (groupByDayOfWeekB rows) = DAYS
      ∧ (∀ d ∈ DAYS, objGet (groupByDayOfWeekB rows) d
          = some (rows.filter fun r => decide (r.dayName = d)))
      ∧ (∀ r ∈ rows, r.dayName ≠ "" →
          (DAYS.filter fun d =>
            decide (r ∈ (objGet (groupByDayOfWeekB rows) d).getD [])).length = 1)
      ∧ (∀ r : RecordB, r.dayName = "" → ∀ d, r ∉ (objGet (groupByDayOfWeekB rows) d).getD []))
    ∧ (∀ (jsDate : String → Option JSDate) (tr : RawRow),
        (mkRecordA jsDate tr).dayName = "" ∨ (mkRecordA jsDate tr).dayName ∈ DAYS)
    ∧ (∀ (jsDate : String → Option JSDate) (tr : RawRow),
        (mkRecordB jsDate tr).dayName = "" ∨ (mkRecordB jsDate tr).dayName ∈ DAYS) := by
  refine ⟨fun rows hdn => groupByDayG_partition (fun r : RecordA => r.dayName) rows hdn,
    fun rows hdn => groupByDayG_partition (fun r : RecordB => r.dayName) rows hdn, ?_, ?_⟩
  · intro jsDate tr
    cases he : parseDateWith jsDate (getCell tr.dateCell) with
    | none =>
      left
      simp only [mkRecordA, he]
    | some d =>
      right
      simp only [mkRecordA, he, dayNameOf]
      exact List.get_mem DAYS _ _
  · intro jsDate tr
    cases he : parseDateWith jsDate (getCell tr.dateCell) with
    | none =>
      left
      simp only [mkRecordB, he]
    | some d =>
      right
      simp only [mkRecordB, he, dayNameOf]
      exact List.get_mem DAYS _ _

/-- C6: in both variants, the symbol buckets concatenated in bucket order
are a permutation of the input records; each bucket is exactly the ordered
filter of the records with its symbol (present if and only if the symbol
occurs); and the symbol list exposed for the selector is the distinct
symbols sorted lexicographically. -/
theorem groupBySymbol_buckets :
    (∀ rows : List RecordA,
      (((groupBySymbolA rows).map fun kv => kv.2).flatten).Perm rows
      ∧ (∀ k : String, objGet (groupBySymbolA rows) k
          = if k ∈ rows.map (fun r => r.symbol)
            then some (rows.filter fun r => decide (r.symbol = k)) else none)
      ∧ (sortedSymbolsA rows).Sorted (fun a b => a ≤ b)
      ∧ (sortedSymbolsA rows).Nodup
      ∧ (∀ s, s ∈ sortedSymbolsA rows ↔ s ∈ rows.map fun r => r.symbol))
    ∧ (∀ rows : List RecordB,
      (((groupBySymbolB rows).map fun kv => kv.2).flatten).Perm rows
      ∧ (∀ k : String, objGet (groupBySymbolB rows) k
          = if k ∈ rows.map (fun r => r.symbol)
            then some (rows.filter fun r => decide (r.symbol = k)) else none)
      ∧ (sortedSymbolsB rows).Sorted (fun a b => a ≤ b)
      ∧ (sortedSymbolsB rows).Nodup
      ∧ (∀ s, s ∈ sortedSymbolsB rows ↔ s ∈ rows.map fun r => r.symbol)) := by
  constructor
  · intro rows
    have hperm : ((sortedSymbolsA rows).Perm (keysOf (groupBySymbolA rows))) :=
      List.perm_insertionSort (fun a b => a ≤ b) (keysOf (groupBySymbolA rows))
    have hkeys : keysOf (groupBySymbolA rows) = dedupF (rows.map fun r => r.symbol) :=
      groupByKey_keys (fun r : RecordA => r.symbol) rows
    refine ⟨groupByKey_flatten_perm (fun r : RecordA => r.symbol) rows,
      fun k => groupByKey_get (fun r : RecordA => r.symbol) rows k,
      List.sorted_insertionSort (fun a b => a ≤ b) (keysOf (groupBySymbolA rows)), ?_, ?_⟩
    · rw [hperm.nodup_iff, hkeys]
      exact dedupF_nodup _
    · intro s
      rw [hperm.mem_iff, hkeys, mem_dedupF]
  · intro rows
    have hperm : ((sortedSymbolsB rows).Perm (keysOf (groupBySymbolB rows))) :=
      List.perm_insertionSort (fun a b => a ≤ b) (keysOf (groupBySymbolB rows))
    have hkeys : keysOf (groupBySymbolB rows) = dedupF (rows.map fun r => r.symbol) :=
      groupByKey_keys (fun r : RecordB => r.symbol) rows
    refine ⟨groupByKey_flatten_perm (fun r : RecordB => r.symbol) rows,
      fun k => groupByKey_get (fun r : RecordB => r.symbol) rows k,
      List.sorted_insertionSort (fun a b => a ≤ b) (keysOf (groupBySymbolB rows)), ?_, ?_⟩
    · rw [hperm.nodup_iff, hkeys]
      exact dedupF_nodup _
    · intro s
      rw [hperm.mem_iff, hkeys, mem_dedupF]

/-- C7: in variant B, on a non-empty record list `worstIntradayLow` is the
minimum of the `pnlLow` values present in the records, and when none are
present it falls back to `worstDayNet`, the worst single-day net loss. -/
theorem worstIntradayLow_min (rows : List RecordB) (hne : rows ≠ []) :
    (pnlLowsB rows ≠ [] →
      (computeStatsB rows).worstIntradayLow ∈ pnlLowsB rows
      ∧ ∀ x ∈ pnlLowsB rows, (computeStatsB rows).worstIntradayLow ≤ x)
    ∧ (pnlLowsB rows = [] →
      (computeStatsB rows).worstIntradayLow = (computeStatsB rows).worstDayNet) := by
  have hlen : rows.length ≠ 0 := fun h => hne (List.length_eq_zero.mp h)
  have hW : (computeStatsB rows).worstIntradayLow = worstIntradayLowB rows := by
    rw [computeStatsB, computeStatsBWith, if_neg hlen]
  have hD : (computeStatsB rows).worstDayNet = worstDayNetB rows := by
    rw [computeStatsB, computeStatsBWith, if_neg hlen]
  constructor
  · intro hp
    have hplen : (pnlLowsB rows).length ≠ 0 := fun h => hp (List.length_eq_zero.mp h)
    rw [hW, worstIntradayLowB, if_pos hplen]
    exact ⟨listMin_mem _ hp, fun x hx => listMin_le _ x hx⟩
  · intro hp
    have hplen : ¬(pnlLowsB rows).length ≠ 0 := by rw [hp]; simp
    rw [hW, hD, worstIntradayLowB, if_neg hplen]
    by_cases hl : (losingRowsB rows).length ≠ 0
    · rw [if_pos hl]
    · rw [if_neg hl, worstDayNetB, if_neg hl]

/-- A concrete variant B record for witnesses. -/
def sampleB (day : String) (net : ℚ) (low : Option ℚ) : RecordB :=
  ⟨none, day, "AAA", net, net, 0, 0, low, none, ""⟩

/-- C7 witness: a concrete two-record set with `pnlLow` values `-5` and
`-2`; the reported worst intraday low is a member of the `pnlLow` list and
a lower bound of it. -/
theorem worstIntradayLow_min_witness :
    (computeStatsB [sampleB "d1" 50 (some (-5)), sampleB "d2" (-20) (some (-2))]).worstIntradayLow
      ∈ pnlLowsB [sampleB "d1" 50 (some (-5)), sampleB "d2" (-20) (some (-2))]
    ∧ ∀ x ∈ pnlLowsB [sampleB "d1" 50 (some (-5)), sampleB "d2" (-20) (some (-2))],
      (computeStatsB [sampleB "d1" 50 (some (-5)), sampleB "d2" (-20) (some (-2))]).worstIntradayLow
        ≤ x :=
  (worstIntradayLow_min [sampleB "d1" 50 (some (-5)), sampleB "d2" (-20) (some (-2))]
      (List.cons_ne_nil _ _)).1
    (List.cons_ne_nil _ _)

theorem byDateFold_eq :
    ∀ rows : List RecordB, (∀ r ∈ rows, r.dateStr ≠ "") →
      ∀ o : List (String × List RecordB),
        rows.foldl (fun o r => if byDateKeyB r = "" then o else pushKey o (byDateKeyB r) r) o
          = rows.foldl (fun o r => pushKey o r.dateStr r) o := by
  intro rows
  induction rows with
  | nil => intro _ o; rfl
  | cons r rs ih =>
    intro hds o
    have hr : r.dateStr ≠ "" := hds r (List.mem_cons_self r rs)
    have hkey : byDateKeyB r = r.dateStr := by rw [byDateKeyB, if_pos hr]
    simp only [List.foldl_cons]
    rw [hkey, if_neg hr]
    exact ih (fun x hx => hds x (List.mem_cons_of_mem r hx)) (pushKey o r.dateStr r)

theorem byDateB_eq (rows : List RecordB) (hds : ∀ r ∈ rows, r.dateStr ≠ "") :
    byDateB rows = groupByKey (fun r : RecordB => r.dateStr) rows := by
  rw [byDateB, groupByKey]
  exact byDateFold_eq rows hds []

theorem dateTotalsB_eq (rows : List RecordB) (hds : ∀ r ∈ rows, r.dateStr ≠ "") :
    dateTotalsB rows
      = (dedupF (rows.map fun r => r.dateStr)).map fun k =>
          ⟨k, ((rows.filter fun r => decide (r.dateStr = k)).map fun r => r.netPnl).sum,
              ((rows.filter fun r => decide (r.dateStr = k)).map fun r => recGrossB r).sum⟩ := by
  rw [dateTotalsB, byDateB_eq rows hds,
    groupByKey_eq_map_filter (fun r : RecordB => r.dateStr) rows, List.map_map]
  apply List.map_congr_left
  intro k _
  show DayTotal.mk k
      ((rows.filter fun r => decide (r.dateStr = k)).foldl (fun s r => s + r.netPnl) 0)
      ((rows.filter fun r => decide (r.dateStr = k)).foldl (fun s r => s + recGrossB r) 0)
    = _
  congr 1
  · rw [foldl_add_eq (fun r : RecordB => r.netPnl), zero_add]
  · rw [foldl_add_eq (fun r : RecordB => recGrossB r), zero_add]

/-- C8: in variant B, with every record carrying a non-empty date label (as
`parseTable` guarantees), `profitableDays` counts the distinct trading days
whose summed net P&L is strictly positive, `losingDays` those strictly
negative (a zero-sum day counts as neither), and `dayWinRatePct` is
`profitableDays` divided by the number of ALL distinct trading days, times
100.  `dedupF` lists the distinct `dateStr` values: it is duplicate-free
and has the same members as the day labels of the records. -/
theorem dayWinRate_distinct_days (rows : List RecordB) (hne : rows ≠ [])
    (hds : ∀ r ∈ rows, r.dateStr ≠ "") :
    (dedupF (rows.map fun r => r.dateStr)).Nodup
    ∧ (∀ s, s ∈ dedupF (rows.map fun r => r.dateStr) ↔ s ∈ rows.map fun r => r.dateStr)
    ∧ (computeStatsB rows).profitableDays
        = ((dedupF (rows.map fun r => r.dateStr)).filter fun k =>
            decide (0 < ((rows.filter fun r => decide (r.dateStr = k)).map
              fun r => r.netPnl).sum)).length
    ∧ (computeStatsB rows).losingDays
        = ((dedupF (rows.map fun r => r.dateStr)).filter fun k =>
            decide (((rows.filter fun r => decide (r.dateStr = k)).map
              fun r => r.netPnl).sum < 0)).length
    ∧ (computeStatsB rows).dayWinRatePct
        = (((computeStatsB rows).profitableDays : ℚ)
            / ((dedupF (rows.map fun r => r.dateStr)).length : ℚ)) * 100 := by
  have hlen : rows.length ≠ 0 := fun h => hne (List.length_eq_zero.mp h)
  have hdt := dateTotalsB_eq rows hds
  have hP : (computeStatsB rows).profitableDays = profitableDaysB rows := by
    rw [computeStatsB, computeStatsBWith, if_neg hlen]
  have hL : (computeStatsB rows).losingDays = losingDaysB rows := by
    rw [computeStatsB, computeStatsBWith, if_neg hlen]
  have hR : (computeStatsB rows).dayWinRatePct = dayWinRatePctBWith (fun a b => a / b) rows := by
    rw [computeStatsB, computeStatsBWith, if_neg hlen]
  have hPd : profitableDaysB rows
      = ((dedupF (rows.map fun r => r.dateStr)).filter fun k =>
          decide (0 < ((rows.filter fun r => decide (r.dateStr = k)).map
            fun r => r.netPnl).sum)).length := by
    rw [profitableDaysB, hdt, ← List.countP_eq_length_filter, List.countP_map,
      List.countP_eq_length_filter]
    rfl
  have hLd : losingDaysB rows
      = ((dedupF (rows.map fun r => r.dateStr)).filter fun k =>
          decide (((rows.filter fun r => decide (r.dateStr = k)).map
            fun r => r.netPnl).sum < 0)).length := by
    rw [losingDaysB, hdt, ← List.countP_eq_length_filter, List.countP_map,
      List.countP_eq_length_filter]
    rfl
  have hT : totalTradingDaysB rows = (dedupF (rows.map fun r => r.dateStr)).length := by
    rw [totalTradingDaysB, hdt, List.length_map]
  have hTne : totalTradingDaysB rows ≠ 0 := by
    rw [hT]
    cases rows with
    | nil => exact absurd rfl hne
    | cons r rs =>
      have hmem : r.dateStr ∈ dedupF ((r :: rs).map fun x => x.dateStr) :=
        (mem_dedupF _ _).mpr (by simp)
      intro h0
      rw [List.length_eq_zero] at h0
      rw [h0] at hmem
      exact List.not_mem_nil _ hmem
  refine ⟨dedupF_nodup _, fun s => mem_dedupF _ s, by rw [hP, hPd], by rw [hL, hLd], ?_⟩
  rw [hR, dayWinRatePctBWith, if_pos hTne, hT, ← hP]

/-- C8 scenario input: two distinct trading days, one net +50 and one
net -20. -/
def c8rows : List RecordB :=
  [sampleB "2024-01-02" 50 none, sampleB "2024-01-03" (-20) none]

/-- C8 witness: on the two-day scenario the day win rate is 50 with one
profitable and one losing day. -/
theorem dayWinRate_distinct_days_witness :
    (computeStatsB c8rows).dayWinRatePct = 50
    ∧ (computeStatsB c8rows).profitableDays = 1
    ∧ (computeStatsB c8rows).losingDays = 1 := by
  have h := dayWinRate_distinct_days c8rows (by decide) (by decide)
  have hK : dedupF (c8rows.map fun r => r.dateStr) = ["2024-01-02", "2024-01-03"] := rfl
  have hs1 : ((c8rows.filter fun r => decide (r.dateStr = "2024-01-02")).map
      fun r => r.netPnl).sum = (50 : ℚ) + 0 := rfl
  have hs2 : ((c8rows.filter fun r => decide (r.dateStr = "2024-01-03")).map
      fun r => r.netPnl).sum = (-20 : ℚ) + 0 := rfl
  have hP : (computeStatsB c8rows).profitableDays = 1 := by
    rw [h.2.2.1, hK]
    simp only [List.filter_cons, List.filter_nil, hs1, hs2]
    norm_num
  have hL : (computeStatsB c8rows).losingDays = 1 := by
    rw [h.2.2.2.1, hK]
    simp only [List.filter_cons, List.filter_nil, hs1, hs2]
    norm_num
  have hR : (computeStatsB c8rows).dayWinRatePct = 50 := by
    rw [h.2.2.2.2, hP, hK]
    norm_num
  exact ⟨hR, hP, hL⟩

end Lucid
